import Mathlib

/-!
Formal model of `src/sphinx2/src/libsphinx2/blk_cdcn_norm.c`.

The C file implements CDCN block normalization: `block_actual_cdcn_norm`
cleans each cepstral frame of an utterance by a posterior-weighted mixture
reconstruction, and `block_cdcn_norm` is a thin gating wrapper around it.

Modelling choices:
* Machine floats are modelled by exact rationals `ℚ`; the C library
  function `exp` is modelled by an abstract parameter `e : ℚ → ℚ`.
  Positivity of the real exponential becomes an explicit hypothesis on `e`
  wherever a property needs it.
* `NUM_COEFF` is the dimension constant from `cdcn.h`; it is kept as a
  parameter.  A coefficient vector is a total function `ℕ → ℚ`; its valid
  indices are `0 .. NUM_COEFF`, so the vector length is `D = NUM_COEFF + 1`.
* An utterance is `zs : ℕ → ℕ → ℚ` (frame index to frame vector); each
  frame is modelled as its own vector, and the routine rewrites frames
  `0 .. num_frames - 1`.
-/

namespace BlkCdcnNorm

/-- Distance of frame `z` to codeword `0`, as computed by the straight-line
code before the `k` loop of `block_actual_cdcn_norm`: the `j = 0` term uses
`z[0] - means[0][0] - corrbook[0][0] - tilt[0]`, then dimensions
`1 .. NUM_COEFF` accumulate `z[j] - tilt[j] - means[0][j] - corrbook[0][j]`
squared over the variance. -/
def distance0 (NUM_COEFF : ℕ) (variance : ℕ → ℕ → ℚ) (tilt : ℕ → ℚ)
    (means corrbook : ℕ → ℕ → ℚ) (z : ℕ → ℚ) : ℚ :=
  (z 0 - means 0 0 - corrbook 0 0 - tilt 0) * (z 0 - means 0 0 - corrbook 0 0 - tilt 0)
      / variance 0 0
    + ∑ j ∈ Finset.Icc 1 NUM_COEFF,
        (z j - tilt j - means 0 j - corrbook 0 j) * (z j - tilt j - means 0 j - corrbook 0 j)
          / variance 0 j

/-- Distance of frame `z` to codeword `k`, as computed by the body of the
`k` loop of `block_actual_cdcn_norm`: the `j = 0` term uses
`z[0] - means[k][0] - corrbook[k][0] - tilt[0]`, then dimensions
`1 .. NUM_COEFF` accumulate `z[j] - tilt[j] - corrbook[k][j] - means[k][j]`
squared over the variance. -/
def distance_k (NUM_COEFF : ℕ) (variance : ℕ → ℕ → ℚ) (tilt : ℕ → ℚ)
    (means corrbook : ℕ → ℕ → ℚ) (z : ℕ → ℚ) (k : ℕ) : ℚ :=
  (z 0 - means k 0 - corrbook k 0 - tilt 0) * (z 0 - means k 0 - corrbook k 0 - tilt 0)
      / variance k 0
    + ∑ j ∈ Finset.Icc 1 NUM_COEFF,
        (z j - tilt j - corrbook k j - means k j) * (z j - tilt j - corrbook k j - means k j)
          / variance k j

/-- Unnormalized posterior weight of codeword `0`:
`fk = exp(-distance/2) * prob[0]`, with the distance computed by the
straight-line prologue. -/
def fk0 (e : ℚ → ℚ) (NUM_COEFF : ℕ) (variance : ℕ → ℕ → ℚ) (prob tilt : ℕ → ℚ)
    (means corrbook : ℕ → ℕ → ℚ) (z : ℕ → ℚ) : ℚ :=
  e (-(distance0 NUM_COEFF variance tilt means corrbook z) / 2) * prob 0

/-- Unnormalized posterior weight of codeword `k` as computed in the `k`
loop: `fk = exp(-distance/2) * prob[k]`. -/
def fk (e : ℚ → ℚ) (NUM_COEFF : ℕ) (variance : ℕ → ℕ → ℚ) (prob tilt : ℕ → ℚ)
    (means corrbook : ℕ → ℕ → ℚ) (z : ℕ → ℚ) (k : ℕ) : ℚ :=
  e (-(distance_k NUM_COEFF variance tilt means corrbook z k) / 2) * prob k

/-- The reestimation denominator `den`: initialized with codeword 0 weight
(`den = fk`) and then incremented by `fk` for `k = 1 .. num_codes - 1`. -/
def den (e : ℚ → ℚ) (NUM_COEFF : ℕ) (variance : ℕ → ℕ → ℚ) (prob tilt : ℕ → ℚ)
    (means corrbook : ℕ → ℕ → ℚ) (num_codes : ℕ) (z : ℕ → ℚ) : ℚ :=
  fk0 e NUM_COEFF variance prob tilt means corrbook z
    + ∑ k ∈ Finset.Ico 1 num_codes, fk e NUM_COEFF variance prob tilt means corrbook z k

/-- The accumulated numerator vector `x`: initialized to zero and updated by
`x[j] += (z[j] - tilt[j] - corrbook[k][j]) * fk` only inside the
`k = 1 .. num_codes - 1` loop. -/
def x_acc (e : ℚ → ℚ) (NUM_COEFF : ℕ) (variance : ℕ → ℕ → ℚ) (prob tilt : ℕ → ℚ)
    (means corrbook : ℕ → ℕ → ℚ) (num_codes : ℕ) (z : ℕ → ℚ) (j : ℕ) : ℚ :=
  ∑ k ∈ Finset.Ico 1 num_codes,
    (z j - tilt j - corrbook k j) * fk e NUM_COEFF variance prob tilt means corrbook z k

/-- Value of the loop variable `j` at the point where the `den == 0`
fallback `z[i][j] -= tilt[j]` executes: every `j` loop of the frame body
runs while `j <= NUM_COEFF` and increments `j` once more before exiting, so
`j = NUM_COEFF + 1` there. -/
def fallback_j (NUM_COEFF : ℕ) : ℕ := NUM_COEFF + 1

/-- Per-frame result of `block_actual_cdcn_norm`: when `den` is nonzero the
frame cells `0 .. NUM_COEFF` are overwritten with `x[j] / den`; otherwise
the single statement `z[i][j] -= tilt[j]` runs with `j` left at
`NUM_COEFF + 1` by the preceding loops. -/
def cleanFrame (e : ℚ → ℚ) (NUM_COEFF : ℕ) (variance : ℕ → ℕ → ℚ) (prob tilt : ℕ → ℚ)
    (means corrbook : ℕ → ℕ → ℚ) (num_codes : ℕ) (z : ℕ → ℚ) : ℕ → ℚ :=
  if den e NUM_COEFF variance prob tilt means corrbook num_codes z ≠ 0 then
    fun j =>
      if j ≤ NUM_COEFF then
        x_acc e NUM_COEFF variance prob tilt means corrbook num_codes z j
          / den e NUM_COEFF variance prob tilt means corrbook num_codes z
      else z j
  else
    fun j => if j = fallback_j NUM_COEFF then z j - tilt j else z j

/-- `block_actual_cdcn_norm` with the utterance idealized as disjoint
per-frame vectors: frames `0 .. num_frames - 1` are rewritten
independently; the `noise` argument is received (as in the C parameter
list) but never read.  This form abstracts from the contiguous row layout
of the C array `z[][NUM_COEFF+1]`; `block_actual_cdcn_norm_flat` below is
the layout-faithful semantics, and the two agree on every valid cell
exactly when no frame takes the `den == 0` fallback (proved below), the
fallback write being the out-of-bounds defect of that branch. -/
def block_actual_cdcn_norm (e : ℚ → ℚ) (NUM_COEFF : ℕ) (variance : ℕ → ℕ → ℚ)
    (prob tilt noise : ℕ → ℚ) (means corrbook : ℕ → ℕ → ℚ) (num_codes : ℕ)
    (zs : ℕ → ℕ → ℚ) (num_frames : ℕ) : ℕ → ℕ → ℚ :=
  fun i =>
    if i < num_frames then
      cleanFrame e NUM_COEFF variance prob tilt means corrbook num_codes (zs i)
    else zs i

/-- The suitcase of CDCN state opened by `block_cdcn_norm`, with exactly the
fields that routine reads. -/
structure CDCN_type where
  run_cdcn : Bool
  firstcall : Bool
  variance : ℕ → ℕ → ℚ
  probs : ℕ → ℚ
  tilt : ℕ → ℚ
  noise : ℕ → ℚ
  means : ℕ → ℕ → ℚ
  corrbook : ℕ → ℕ → ℚ
  num_codes : ℕ

/-- The gating wrapper `block_cdcn_norm`: returns the frames untouched when
`run_cdcn` is unset or `firstcall` is still set, and otherwise unpacks the
suitcase and calls `block_actual_cdcn_norm`. -/
def block_cdcn_norm (e : ℚ → ℚ) (NUM_COEFF : ℕ) (z : ℕ → ℕ → ℚ) (num_frames : ℕ)
    (cdcn_variables : CDCN_type) : ℕ → ℕ → ℚ :=
  if cdcn_variables.run_cdcn = false then z
  else if cdcn_variables.firstcall = true then z
  else
    block_actual_cdcn_norm e NUM_COEFF cdcn_variables.variance cdcn_variables.probs
      cdcn_variables.tilt cdcn_variables.noise cdcn_variables.means cdcn_variables.corrbook
      cdcn_variables.num_codes z num_frames

/-- The per-codeword distance exactly as the specification document writes
it: a single sum over all dimensions `j = 0 .. NUM_COEFF` of
`(z[j] - tilt[j] - mean[k][j] - correction[k][j])^2 / variance[k][j]`. -/
def spec_distance (NUM_COEFF : ℕ) (variance : ℕ → ℕ → ℚ) (tilt : ℕ → ℚ)
    (means corrbook : ℕ → ℕ → ℚ) (z : ℕ → ℚ) (k : ℕ) : ℚ :=
  ∑ j ∈ Finset.range (NUM_COEFF + 1),
    (z j - tilt j - means k j - corrbook k j) ^ 2 / variance k j

/-- Address of cell `(i, j)` of the input array `z[][NUM_COEFF+1]` in the
contiguous C row layout: row `i` starts at `i * (NUM_COEFF + 1)`. -/
def flatIdx (NUM_COEFF i j : ℕ) : ℕ := i * (NUM_COEFF + 1) + j

/-- Row `i` of a flat memory, as the C code forms `z[i]`. -/
def rowOf (NUM_COEFF : ℕ) (m : ℕ → ℚ) (i : ℕ) : ℕ → ℚ :=
  fun j => m (i * (NUM_COEFF + 1) + j)

/-- One iteration of the frame loop of `block_actual_cdcn_norm`, acting on
the contiguous memory.  With `den` nonzero it stores `x[j] / den` into the
cells `i*(NUM_COEFF+1) + j` for `j = 0 .. NUM_COEFF`.  With `den = 0` it
executes `z[i][j] -= tilt[j]` at the loop exit value `j = NUM_COEFF + 1`,
touching the cell at address `i*(NUM_COEFF+1) + (NUM_COEFF+1)`, which is
the first cell of row `i + 1`. -/
def stepFrame (e : ℚ → ℚ) (NUM_COEFF : ℕ) (variance : ℕ → ℕ → ℚ) (prob tilt : ℕ → ℚ)
    (means corrbook : ℕ → ℕ → ℚ) (num_codes : ℕ) (m : ℕ → ℚ) (i : ℕ) : ℕ → ℚ :=
  fun a =>
    if den e NUM_COEFF variance prob tilt means corrbook num_codes
        (rowOf NUM_COEFF m i) ≠ 0 then
      if i * (NUM_COEFF + 1) ≤ a ∧ a ≤ i * (NUM_COEFF + 1) + NUM_COEFF then
        x_acc e NUM_COEFF variance prob tilt means corrbook num_codes
            (rowOf NUM_COEFF m i) (a - i * (NUM_COEFF + 1))
          / den e NUM_COEFF variance prob tilt means corrbook num_codes
              (rowOf NUM_COEFF m i)
      else m a
    else
      if a = i * (NUM_COEFF + 1) + fallback_j NUM_COEFF then
        m a - tilt (fallback_j NUM_COEFF)
      else m a

/-- `block_actual_cdcn_norm` on the contiguous memory of the C array: the
frame loop runs `i = 0 .. num_frames - 1` in order, every iteration reading
and writing the single flat array, so a fallback write of frame `i` is seen
by the processing of frame `i + 1`. -/
def block_actual_cdcn_norm_flat (e : ℚ → ℚ) (NUM_COEFF : ℕ) (variance : ℕ → ℕ → ℚ)
    (prob tilt noise : ℕ → ℚ) (means corrbook : ℕ → ℕ → ℚ) (num_codes : ℕ)
    (m : ℕ → ℚ) (num_frames : ℕ) : ℕ → ℚ :=
  match num_frames with
  | 0 => m
  | n + 1 =>
      stepFrame e NUM_COEFF variance prob tilt means corrbook num_codes
        (block_actual_cdcn_norm_flat e NUM_COEFF variance prob tilt noise means corrbook
          num_codes m n) n

/-- Splitting a sum over `0 .. n` into the `j = 0` term and the tail
`1 .. n`, matching how the C code walks one coefficient vector. -/
lemma sum_range_succ_eq_head_add_Icc (n : ℕ) (f : ℕ → ℚ) :
    ∑ j ∈ Finset.range (n + 1), f j = f 0 + ∑ j ∈ Finset.Icc 1 n, f j := by
  rw [Finset.sum_range_eq_add_Ico f (Nat.succ_pos n), Nat.Ico_succ_right]

/-- The two textual copies of the distance computation (prologue for
codeword 0, loop body for the others) agree at `k = 0`. -/
lemma distance0_eq_distance_k_zero (NUM_COEFF : ℕ) (variance : ℕ → ℕ → ℚ)
    (tilt : ℕ → ℚ) (means corrbook : ℕ → ℕ → ℚ) (z : ℕ → ℚ) :
    distance0 NUM_COEFF variance tilt means corrbook z
      = distance_k NUM_COEFF variance tilt means corrbook z 0 := by
  unfold distance0 distance_k
  congr 1
  exact Finset.sum_congr rfl fun j _ => by ring

/-- The codeword 0 weight computed by the prologue is the `k = 0` instance
of the loop body weight. -/
lemma fk0_eq_fk_zero (e : ℚ → ℚ) (NUM_COEFF : ℕ) (variance : ℕ → ℕ → ℚ)
    (prob tilt : ℕ → ℚ) (means corrbook : ℕ → ℕ → ℚ) (z : ℕ → ℚ) :
    fk0 e NUM_COEFF variance prob tilt means corrbook z
      = fk e NUM_COEFF variance prob tilt means corrbook z 0 := by
  unfold fk0 fk
  rw [distance0_eq_distance_k_zero]

/-- `den` is the sum of the codeword weights over all of `0 .. num_codes - 1`. -/
lemma den_eq_sum_range (e : ℚ → ℚ) (NUM_COEFF : ℕ) (variance : ℕ → ℕ → ℚ)
    (prob tilt : ℕ → ℚ) (means corrbook : ℕ → ℕ → ℚ) (num_codes : ℕ) (z : ℕ → ℚ)
    (hnc : 1 ≤ num_codes) :
    den e NUM_COEFF variance prob tilt means corrbook num_codes z
      = ∑ k ∈ Finset.range num_codes,
          fk e NUM_COEFF variance prob tilt means corrbook z k := by
  unfold den
  rw [fk0_eq_fk_zero, Finset.sum_range_eq_add_Ico _ hnc]

/-- When every processed frame of the flat memory has a nonzero `den`, all
writes of the frame loop stay below address `num_frames * (NUM_COEFF + 1)`,
so every cell from that address on keeps its initial value.  (A frame with
`den = 0` would instead write exactly at the start address of the next
row.) -/
lemma flat_tail_unchanged (e : ℚ → ℚ) (NUM_COEFF : ℕ) (variance : ℕ → ℕ → ℚ)
    (prob tilt noise : ℕ → ℚ) (means corrbook : ℕ → ℕ → ℚ) (num_codes : ℕ)
    (m : ℕ → ℚ) :
    ∀ n, (∀ i, i < n → den e NUM_COEFF variance prob tilt means corrbook num_codes
        (rowOf NUM_COEFF m i) ≠ 0) →
      ∀ a, n * (NUM_COEFF + 1) ≤ a →
        block_actual_cdcn_norm_flat e NUM_COEFF variance prob tilt noise means corrbook
          num_codes m n a = m a := by
  intro n
  induction n with
  | zero => intro _ a _; rfl
  | succ n ih =>
      intro hden a ha
      have hden_n : ∀ i, i < n → den e NUM_COEFF variance prob tilt means corrbook
          num_codes (rowOf NUM_COEFF m i) ≠ 0 :=
        fun i hi => hden i (Nat.lt_succ_of_lt hi)
      have hrow : rowOf NUM_COEFF (block_actual_cdcn_norm_flat e NUM_COEFF variance prob
          tilt noise means corrbook num_codes m n) n = rowOf NUM_COEFF m n := by
        funext j
        exact ih hden_n (n * (NUM_COEFF + 1) + j) (Nat.le_add_right _ _)
      have hsm : (n + 1) * (NUM_COEFF + 1) = n * (NUM_COEFF + 1) + (NUM_COEFF + 1) :=
        Nat.succ_mul n (NUM_COEFF + 1)
      show stepFrame e NUM_COEFF variance prob tilt means corrbook num_codes
          (block_actual_cdcn_norm_flat e NUM_COEFF variance prob tilt noise means corrbook
            num_codes m n) n a = m a
      unfold stepFrame
      rw [hrow]
      rw [if_pos (hden n (Nat.lt_succ_self n))]
      rw [if_neg (by omega)]
      exact ih hden_n a (by omega)

/-- C5: for every frame `z` and every codeword `k`, the distance computed by
the block normalizer equals the sum over all dimensions `j = 0 .. NUM_COEFF`
of `(z[j] - tilt[j] - mean[k][j] - correction[k][j])^2 / variance[k][j]`,
and the unnormalized posterior weight equals `exp(-distance/2) * prior[k]`
(both for the codeword 0 prologue and for the loop body). -/
theorem C5_distance_and_weight_formula (e : ℚ → ℚ) (NUM_COEFF : ℕ)
    (variance : ℕ → ℕ → ℚ) (prob tilt : ℕ → ℚ) (means corrbook : ℕ → ℕ → ℚ)
    (z : ℕ → ℚ) :
    distance0 NUM_COEFF variance tilt means corrbook z
        = spec_distance NUM_COEFF variance tilt means corrbook z 0
    ∧ (∀ k, distance_k NUM_COEFF variance tilt means corrbook z k
        = spec_distance NUM_COEFF variance tilt means corrbook z k)
    ∧ (∀ k, fk e NUM_COEFF variance prob tilt means corrbook z k
        = e (-(spec_distance NUM_COEFF variance tilt means corrbook z k) / 2) * prob k)
    ∧ fk0 e NUM_COEFF variance prob tilt means corrbook z
        = e (-(spec_distance NUM_COEFF variance tilt means corrbook z 0) / 2) * prob 0 := by
  have hspec : ∀ k, distance_k NUM_COEFF variance tilt means corrbook z k
      = spec_distance NUM_COEFF variance tilt means corrbook z k := by
    intro k
    unfold distance_k spec_distance
    rw [sum_range_succ_eq_head_add_Icc]
    congr 1
    · ring
    · exact Finset.sum_congr rfl fun j _ => by ring
  refine ⟨?_, hspec, ?_, ?_⟩
  · rw [distance0_eq_distance_k_zero, hspec 0]
  · intro k
    unfold fk
    rw [hspec k]
  · unfold fk0
    rw [distance0_eq_distance_k_zero, hspec 0]

/-- C1: with at least one codeword, `den` is the sum of the weights over
every codeword `k = 0 .. num_codes - 1`, while the numerator vector `x`
accumulates `(z[j] - tilt[j] - correction[k][j]) * fk` only over codewords
`k = 1 .. num_codes - 1`: codeword 0 enters `den` but never `x`. -/
theorem C1_den_all_codewords_x_skips_zero (e : ℚ → ℚ) (NUM_COEFF : ℕ)
    (variance : ℕ → ℕ → ℚ) (prob tilt : ℕ → ℚ) (means corrbook : ℕ → ℕ → ℚ)
    (num_codes : ℕ) (z : ℕ → ℚ) (hnc : 1 ≤ num_codes) :
    den e NUM_COEFF variance prob tilt means corrbook num_codes z
        = ∑ k ∈ Finset.range num_codes,
            fk e NUM_COEFF variance prob tilt means corrbook z k
    ∧ ∀ j, x_acc e NUM_COEFF variance prob tilt means corrbook num_codes z j
        = ∑ k ∈ Finset.Ico 1 num_codes,
            (z j - tilt j - corrbook k j)
              * fk e NUM_COEFF variance prob tilt means corrbook z k := by
  exact ⟨den_eq_sum_range e NUM_COEFF variance prob tilt means corrbook num_codes z hnc,
    fun j => rfl⟩

/-- Witness for C1 at a concrete one-codeword model. -/
theorem C1_den_all_codewords_x_skips_zero_witness :
    1 ≤ 1
    ∧ den (fun _ => 1) 0 (fun _ _ => 1) (fun _ => 1) (fun _ => 0) (fun _ _ => 0)
          (fun _ _ => 0) 1 (fun _ => 0)
        = ∑ k ∈ Finset.range 1,
            fk (fun _ => 1) 0 (fun _ _ => 1) (fun _ => 1) (fun _ => 0) (fun _ _ => 0)
              (fun _ _ => 0) (fun _ => 0) k :=
  ⟨le_refl 1,
    (C1_den_all_codewords_x_skips_zero (fun _ => 1) 0 (fun _ _ => 1) (fun _ => 1)
      (fun _ => 0) (fun _ _ => 0) (fun _ _ => 0) 1 (fun _ => 0) (le_refl 1)).1⟩

/-- C4: whenever `den` is nonzero, every dimension `j = 0 .. NUM_COEFF` of
the frame is overwritten with `x[j] / den`. -/
theorem C4_frame_overwritten_with_x_div_den (e : ℚ → ℚ) (NUM_COEFF : ℕ)
    (variance : ℕ → ℕ → ℚ) (prob tilt : ℕ → ℚ) (means corrbook : ℕ → ℕ → ℚ)
    (num_codes : ℕ) (z : ℕ → ℚ)
    (hden : den e NUM_COEFF variance prob tilt means corrbook num_codes z ≠ 0)
    (j : ℕ) (hj : j ≤ NUM_COEFF) :
    cleanFrame e NUM_COEFF variance prob tilt means corrbook num_codes z j
      = x_acc e NUM_COEFF variance prob tilt means corrbook num_codes z j
          / den e NUM_COEFF variance prob tilt means corrbook num_codes z := by
  unfold cleanFrame
  rw [if_pos hden]
  rw [if_pos hj]

/-- Witness for C4 at a concrete one-codeword model with `den = 1`. -/
theorem C4_frame_overwritten_with_x_div_den_witness :
    cleanFrame (fun _ => 1) 0 (fun _ _ => 1) (fun _ => 1) (fun _ => 0) (fun _ _ => 0)
        (fun _ _ => 0) 1 (fun _ => 0) 0
      = x_acc (fun _ => 1) 0 (fun _ _ => 1) (fun _ => 1) (fun _ => 0) (fun _ _ => 0)
          (fun _ _ => 0) 1 (fun _ => 0) 0
        / den (fun _ => 1) 0 (fun _ _ => 1) (fun _ => 1) (fun _ => 0) (fun _ _ => 0)
            (fun _ _ => 0) 1 (fun _ => 0) :=
  C4_frame_overwritten_with_x_div_den (fun _ => 1) 0 (fun _ _ => 1) (fun _ => 1)
    (fun _ => 0) (fun _ _ => 0) (fun _ _ => 0) 1 (fun _ => 0)
    (by simp [den, fk0, fk]) 0 (le_refl 0)

/-- C9: under strictly positive variances, the distance of any frame to any
codeword is nonnegative (both the prologue value and each loop value). -/
theorem C9_distance_nonneg (NUM_COEFF : ℕ) (variance : ℕ → ℕ → ℚ) (tilt : ℕ → ℚ)
    (means corrbook : ℕ → ℕ → ℚ) (z : ℕ → ℚ) (k : ℕ)
    (hv : ∀ k j, 0 < variance k j) :
    0 ≤ distance0 NUM_COEFF variance tilt means corrbook z
    ∧ 0 ≤ distance_k NUM_COEFF variance tilt means corrbook z k := by
  constructor
  · unfold distance0
    refine add_nonneg (div_nonneg (mul_self_nonneg _) (hv 0 0).le) ?_
    exact Finset.sum_nonneg fun j _ => div_nonneg (mul_self_nonneg _) (hv 0 j).le
  · unfold distance_k
    refine add_nonneg (div_nonneg (mul_self_nonneg _) (hv k 0).le) ?_
    exact Finset.sum_nonneg fun j _ => div_nonneg (mul_self_nonneg _) (hv k j).le

/-- Witness for C9 at a concrete model with unit variances. -/
theorem C9_distance_nonneg_witness :
    0 ≤ distance0 0 (fun _ _ => 1) (fun _ => 0) (fun _ _ => 0) (fun _ _ => 0) (fun _ => 0)
    ∧ 0 ≤ distance_k 0 (fun _ _ => 1) (fun _ => 0) (fun _ _ => 0) (fun _ _ => 0)
        (fun _ => 0) 0 :=
  C9_distance_nonneg 0 (fun _ _ => 1) (fun _ => 0) (fun _ _ => 0) (fun _ _ => 0)
    (fun _ => 0) 0 (fun _ _ => one_pos)

/-- C3 counterexample: in the contiguous row layout, processing frame 0
alone (`num_frames = 1`) at a model whose priors are all zero takes the
`den = 0` fallback, whose write at loop index `NUM_COEFF + 1` lands in the
first cell of frame 1: that cell of frame 1 changes from `5` to `4` even
though frame 1 was never processed, so frame 0 does not write only into
frame 0. -/
theorem C3_counterexample_cross_frame_write :
    (fun _ : ℕ => (5 : ℚ)) (flatIdx 0 1 0) = 5
    ∧ block_actual_cdcn_norm_flat (fun _ => 1) 0 (fun _ _ => 1) (fun _ => 0) (fun _ => 1)
        (fun _ => 0) (fun _ _ => 0) (fun _ _ => 0) 1 (fun _ => 5) 1 (flatIdx 0 1 0) = 4 := by
  constructor
  · rfl
  · have hden : den (fun _ => 1) 0 (fun _ _ => 1) (fun _ => 0) (fun _ => 1) (fun _ _ => 0)
        (fun _ _ => 0) 1 (rowOf 0 (fun _ => 5) 0) = 0 := by
      simp [den, fk0, fk]
    show stepFrame (fun _ => 1) 0 (fun _ _ => 1) (fun _ => 0) (fun _ => 1) (fun _ _ => 0)
        (fun _ _ => 0) 1 (fun _ => 5) 0 (flatIdx 0 1 0) = 4
    unfold stepFrame
    rw [if_neg (by simp [hden])]
    rw [if_pos (by norm_num [flatIdx, fallback_j])]
    norm_num

/-- C3 amended: provided every processed frame has a nonzero `den` (so the
`den == 0` out-of-bounds fallback is never taken), the in-place sequential
run on the contiguous memory agrees on every valid cell with processing
every frame independently from its own observed row: the value written for
frame `i` is a function of the Environment Model and row `i` of the initial
memory alone, and no other frame is read or modified by it. -/
theorem C3_frames_independent_when_no_fallback (e : ℚ → ℚ) (NUM_COEFF : ℕ)
    (variance : ℕ → ℕ → ℚ) (prob tilt noise : ℕ → ℚ) (means corrbook : ℕ → ℕ → ℚ)
    (num_codes : ℕ) (m : ℕ → ℚ) (num_frames : ℕ)
    (hden : ∀ i, i < num_frames → den e NUM_COEFF variance prob tilt means corrbook
        num_codes (rowOf NUM_COEFF m i) ≠ 0)
    (i j : ℕ) (hj : j ≤ NUM_COEFF) :
    rowOf NUM_COEFF (block_actual_cdcn_norm_flat e NUM_COEFF variance prob tilt noise
        means corrbook num_codes m num_frames) i j
      = block_actual_cdcn_norm e NUM_COEFF variance prob tilt noise means corrbook
          num_codes (rowOf NUM_COEFF m) num_frames i j := by
  revert hden
  induction num_frames with
  | zero =>
      intro _
      unfold block_actual_cdcn_norm_flat block_actual_cdcn_norm
      simp
  | succ n ih =>
      intro hden
      have hden_n : ∀ i2, i2 < n → den e NUM_COEFF variance prob tilt means corrbook
          num_codes (rowOf NUM_COEFF m i2) ≠ 0 :=
        fun i2 hi2 => hden i2 (Nat.lt_succ_of_lt hi2)
      have hrow : rowOf NUM_COEFF (block_actual_cdcn_norm_flat e NUM_COEFF variance prob
          tilt noise means corrbook num_codes m n) n = rowOf NUM_COEFF m n := by
        funext j2
        exact flat_tail_unchanged e NUM_COEFF variance prob tilt noise means corrbook
          num_codes m n hden_n (n * (NUM_COEFF + 1) + j2) (Nat.le_add_right _ _)
      show stepFrame e NUM_COEFF variance prob tilt means corrbook num_codes
          (block_actual_cdcn_norm_flat e NUM_COEFF variance prob tilt noise means corrbook
            num_codes m n) n (i * (NUM_COEFF + 1) + j)
        = block_actual_cdcn_norm e NUM_COEFF variance prob tilt noise means corrbook
            num_codes (rowOf NUM_COEFF m) (n + 1) i j
      unfold stepFrame
      rw [hrow]
      rw [if_pos (hden n (Nat.lt_succ_self n))]
      by_cases hin : i = n
      · subst hin
        rw [if_pos ⟨Nat.le_add_right _ _, Nat.add_le_add_left hj _⟩]
        rw [Nat.add_sub_cancel_left]
        unfold block_actual_cdcn_norm cleanFrame
        rw [if_pos (Nat.lt_succ_self i)]
        rw [if_pos (hden i (Nat.lt_succ_self i))]
        rw [if_pos hj]
      · have key : ¬ (n * (NUM_COEFF + 1) ≤ i * (NUM_COEFF + 1) + j
            ∧ i * (NUM_COEFF + 1) + j ≤ n * (NUM_COEFF + 1) + NUM_COEFF) := by
          rcases Nat.lt_or_ge i n with hlt | hge
          · have h1 : (i + 1) * (NUM_COEFF + 1) ≤ n * (NUM_COEFF + 1) :=
              mul_le_mul_right' hlt (NUM_COEFF + 1)
            have h2 : (i + 1) * (NUM_COEFF + 1) = i * (NUM_COEFF + 1) + (NUM_COEFF + 1) :=
              Nat.succ_mul i (NUM_COEFF + 1)
            omega
          · have h1 : (n + 1) * (NUM_COEFF + 1) ≤ i * (NUM_COEFF + 1) :=
              mul_le_mul_right' (by omega) (NUM_COEFF + 1)
            have h2 : (n + 1) * (NUM_COEFF + 1) = n * (NUM_COEFF + 1) + (NUM_COEFF + 1) :=
              Nat.succ_mul n (NUM_COEFF + 1)
            omega
        rw [if_neg key]
        have hih := ih hden_n
        have h2 : block_actual_cdcn_norm e NUM_COEFF variance prob tilt noise means
            corrbook num_codes (rowOf NUM_COEFF m) n i j
          = block_actual_cdcn_norm e NUM_COEFF variance prob tilt noise means corrbook
              num_codes (rowOf NUM_COEFF m) (n + 1) i j := by
          unfold block_actual_cdcn_norm
          rcases Nat.lt_or_ge i n with hi | hi
          · rw [if_pos hi, if_pos (Nat.lt_succ_of_lt hi)]
          · rw [if_neg (Nat.not_lt.mpr hi), if_neg (by omega)]
        exact hih.trans h2

/-- Witness for the amended C3 at a concrete model where the only processed
frame has `den = 1`. -/
theorem C3_frames_independent_when_no_fallback_witness :
    rowOf 0 (block_actual_cdcn_norm_flat (fun _ => 1) 0 (fun _ _ => 1) (fun _ => 1)
        (fun _ => 0) (fun _ => 0) (fun _ _ => 0) (fun _ _ => 0) 1 (fun _ => 5) 1) 0 0
      = block_actual_cdcn_norm (fun _ => 1) 0 (fun _ _ => 1) (fun _ => 1) (fun _ => 0)
          (fun _ => 0) (fun _ _ => 0) (fun _ _ => 0) 1 (rowOf 0 (fun _ => 5)) 1 0 0 :=
  C3_frames_independent_when_no_fallback (fun _ => 1) 0 (fun _ _ => 1) (fun _ => 1)
    (fun _ => 0) (fun _ => 0) (fun _ _ => 0) (fun _ _ => 0) 1 (fun _ => 5) 1
    (fun i2 _ => by simp [den, fk0, fk, rowOf]) 0 0 (le_refl 0)

/-- C6: when `run_cdcn` is unset or `firstcall` is still set, the gating
wrapper returns with every frame exactly equal to its input. -/
theorem C6_gating_wrapper_noop (e : ℚ → ℚ) (NUM_COEFF : ℕ) (z : ℕ → ℕ → ℚ)
    (num_frames : ℕ) (cdcn_variables : CDCN_type)
    (h : cdcn_variables.run_cdcn = false ∨ cdcn_variables.firstcall = true) :
    block_cdcn_norm e NUM_COEFF z num_frames cdcn_variables = z := by
  unfold block_cdcn_norm
  rcases h with h | h
  · rw [if_pos h]
  · rcases hr : cdcn_variables.run_cdcn with _ | _
    · simp
    · rw [if_neg (by simp), if_pos h]

/-- Witness for C6 on a concrete disabled model. -/
theorem C6_gating_wrapper_noop_witness :
    block_cdcn_norm (fun _ => 1) 0 (fun _ _ => (7 : ℚ)) 3
        (CDCN_type.mk false false (fun _ _ => 1) (fun _ => 1) (fun _ => 0) (fun _ => 0)
          (fun _ _ => 0) (fun _ _ => 0) 1)
      = fun _ _ => (7 : ℚ) :=
  C6_gating_wrapper_noop (fun _ => 1) 0 (fun _ _ => (7 : ℚ)) 3
    (CDCN_type.mk false false (fun _ _ => 1) (fun _ => 1) (fun _ => 0) (fun _ => 0)
      (fun _ _ => 0) (fun _ _ => 0) 1) (Or.inl rfl)

/-- C7: with a single-codeword model the numerator loop never runs, so `x`
stays the zero vector, and whenever `den` is nonzero the cleaned frame is
zero in every valid dimension. -/
theorem C7_single_codeword_zero_output (e : ℚ → ℚ) (NUM_COEFF : ℕ)
    (variance : ℕ → ℕ → ℚ) (prob tilt : ℕ → ℚ) (means corrbook : ℕ → ℕ → ℚ)
    (num_codes : ℕ) (z : ℕ → ℚ) (hnc : num_codes = 1) :
    (∀ j, x_acc e NUM_COEFF variance prob tilt means corrbook num_codes z j = 0)
    ∧ (den e NUM_COEFF variance prob tilt means corrbook num_codes z ≠ 0 →
        ∀ j, j ≤ NUM_COEFF →
          cleanFrame e NUM_COEFF variance prob tilt means corrbook num_codes z j = 0) := by
  subst hnc
  have hx : ∀ j, x_acc e NUM_COEFF variance prob tilt means corrbook 1 z j = 0 := by
    intro j
    unfold x_acc
    simp
  refine ⟨hx, fun hden j hj => ?_⟩
  unfold cleanFrame
  rw [if_pos hden, if_pos hj, hx j, zero_div]

/-- Witness for C7 at a concrete one-codeword model with `den = 1`. -/
theorem C7_single_codeword_zero_output_witness :
    x_acc (fun _ => 1) 0 (fun _ _ => 1) (fun _ => 1) (fun _ => 0) (fun _ _ => 0)
        (fun _ _ => 0) 1 (fun _ => 5) 0 = 0
    ∧ cleanFrame (fun _ => 1) 0 (fun _ _ => 1) (fun _ => 1) (fun _ => 0) (fun _ _ => 0)
        (fun _ _ => 0) 1 (fun _ => 5) 0 = 0 :=
  ⟨(C7_single_codeword_zero_output (fun _ => 1) 0 (fun _ _ => 1) (fun _ => 1)
      (fun _ => 0) (fun _ _ => 0) (fun _ _ => 0) 1 (fun _ => 5) rfl).1 0,
    (C7_single_codeword_zero_output (fun _ => 1) 0 (fun _ _ => 1) (fun _ => 1)
      (fun _ => 0) (fun _ _ => 0) (fun _ _ => 0) 1 (fun _ => 5) rfl).2
      (by simp [den, fk0, fk]) 0 (le_refl 0)⟩

/-- C8: the noise vector is carried in the parameter list but never read,
so two invocations differing only in the noise vector return identical
cleaned frame sequences. -/
theorem C8_output_independent_of_noise (e : ℚ → ℚ) (NUM_COEFF : ℕ)
    (variance : ℕ → ℕ → ℚ) (prob tilt noise noise2 : ℕ → ℚ)
    (means corrbook : ℕ → ℕ → ℚ) (num_codes : ℕ) (zs : ℕ → ℕ → ℚ)
    (num_frames : ℕ) :
    block_actual_cdcn_norm e NUM_COEFF variance prob tilt noise means corrbook
        num_codes zs num_frames
      = block_actual_cdcn_norm e NUM_COEFF variance prob tilt noise2 means corrbook
          num_codes zs num_frames := rfl

/-- C2 evidence: at a concrete model whose priors are all zero every
codeword weight is zero, so `den = 0` and the fallback executes; the index
it uses is `fallback_j NUM_COEFF = NUM_COEFF + 1 = D`, which lies outside
the valid range `0 .. NUM_COEFF` of a frame vector, and the fallback indeed
rewrites that out-of-range cell with `z[j] - tilt[j]`. -/
theorem C2_fallback_index_is_out_of_bounds :
    den (fun _ => 1) 1 (fun _ _ => 1) (fun _ => 0) (fun _ => 1) (fun _ _ => 0)
        (fun _ _ => 0) 2 (fun _ => 5) = 0
    ∧ fallback_j 1 = 1 + 1
    ∧ ¬ fallback_j 1 ≤ 1
    ∧ cleanFrame (fun _ => 1) 1 (fun _ _ => 1) (fun _ => 0) (fun _ => 1) (fun _ _ => 0)
        (fun _ _ => 0) 2 (fun _ => 5) (fallback_j 1) = 5 - 1 := by
  have hden : den (fun _ => 1) 1 (fun _ _ => 1) (fun _ => 0) (fun _ => 1) (fun _ _ => 0)
      (fun _ _ => 0) 2 (fun _ => 5) = 0 := by
    simp [den, fk0, fk]
  refine ⟨hden, rfl, by simp [fallback_j], ?_⟩
  unfold cleanFrame
  rw [if_neg (by simp [hden])]
  rw [if_pos rfl]

/-- Stand-in for `exp` in the C10 counterexample.  In that counterexample
the two codeword distances coincide, so the conclusion is insensitive to
the choice of exponential; any strictly positive function, such as this
constant one, realizes it. -/
def expCE : ℚ → ℚ := fun _ => 1

/-- Priors for the C10 counterexample: codeword 0 carries a strictly
positive prior weight, every other codeword the weight `-1`. -/
def probCE : ℕ → ℚ := fun k => if k = 0 then 1 else -1

/-- C10 counterexample: with two codewords, strictly positive variances, a
strictly positive prior on codeword 0 but a negative prior on codeword 1,
the two weights cancel exactly and `den = 0` in exact arithmetic, refuting
the claim that a single strictly positive prior makes `den` positive. -/
theorem C10_counterexample_den_zero :
    0 < probCE 0
    ∧ probCE 1 = -1
    ∧ (0 : ℚ) < expCE 0
    ∧ den expCE 0 (fun _ _ => 1) probCE (fun _ => 0) (fun _ _ => 0) (fun _ _ => 0) 2
        (fun _ => 0) = 0 := by
  refine ⟨by norm_num [probCE], by norm_num [probCE], by norm_num [expCE], ?_⟩
  norm_num [den, fk0, fk, expCE, probCE, Finset.sum_Ico_succ_top]

/-- C10 amended: in exact arithmetic, if the exponential is strictly
positive everywhere, the variances are strictly positive, every live prior
weight is nonnegative and at least one is strictly positive, then `den` is
strictly positive, so the `den == 0` fallback branch is unreachable. -/
theorem C10_den_pos_with_nonneg_priors (e : ℚ → ℚ) (NUM_COEFF : ℕ)
    (variance : ℕ → ℕ → ℚ) (prob tilt : ℕ → ℚ) (means corrbook : ℕ → ℕ → ℚ)
    (num_codes : ℕ) (z : ℕ → ℚ) (he : ∀ t, 0 < e t)
    (hv : ∀ k j, 0 < variance k j)
    (hp : ∀ k, k < num_codes → 0 ≤ prob k)
    (k0 : ℕ) (hk0 : k0 < num_codes) (hp0 : 0 < prob k0) :
    0 < den e NUM_COEFF variance prob tilt means corrbook num_codes z := by
  rw [den_eq_sum_range e NUM_COEFF variance prob tilt means corrbook num_codes z
    (Nat.lt_of_le_of_lt (Nat.zero_le k0) hk0)]
  apply Finset.sum_pos'
  · intro k hk
    exact mul_nonneg (he _).le (hp k (Finset.mem_range.mp hk))
  · exact ⟨k0, Finset.mem_range.mpr hk0, mul_pos (he _) hp0⟩

/-- Witness for the amended C10 at a concrete one-codeword model. -/
theorem C10_den_pos_with_nonneg_priors_witness :
    0 < den (fun _ => 1) 0 (fun _ _ => 1) (fun _ => 1) (fun _ => 0) (fun _ _ => 0)
        (fun _ _ => 0) 1 (fun _ => 0) :=
  C10_den_pos_with_nonneg_priors (fun _ => 1) 0 (fun _ _ => 1) (fun _ => 1) (fun _ => 0)
    (fun _ _ => 0) (fun _ _ => 0) 1 (fun _ => 0) (fun _ => one_pos) (fun _ _ => one_pos)
    (fun _ _ => zero_le_one) 0 Nat.one_pos one_pos

end BlkCdcnNorm
